import Mathlib

/-!
# Verification of the deflate64 decompressor's checkpoint, window and Huffman components

Shallow embedding of `src/output_window.rs`, `src/huffman_tree.rs`,
`src/inflater_checkpoint_impl.rs` and `src/inflater_managed_checkpoint.rs`.
Machine integers (`usize`, `u64`, `u32`, `u16`, `u8`, `i16`) are modelled as
`Nat` / `Int` with explicit `%` reductions exactly where the Rust code wraps,
casts or masks; `usize` is 64-bit (the crate targets 64-bit platforms).
-/

set_option maxHeartbeats 1000000
set_option maxRecDepth 2000

namespace Deflate64

/-- `WINDOW_SIZE` from src/output_window.rs. -/
def WINDOW_SIZE : Nat := 131072

/-- `WINDOW_MASK` from src/output_window.rs (`WINDOW_SIZE - 1 = 2^17 - 1`). -/
def WINDOW_MASK : Nat := 131071

/-- Modulus of `usize`/`u64` arithmetic: `2^64`. -/
def U64 : Nat := 18446744073709551616

/-- Modulus of `u32` arithmetic: `2^32`. -/
def U32 : Nat := 4294967296

/-- `usize::MAX = 2^64 - 1`. -/
def USIZE_MAX : Nat := 18446744073709551615

theorem land_window_mask (x : Nat) : x &&& WINDOW_MASK = x % WINDOW_SIZE := by
  have h : x &&& 2 ^ 17 - 1 = x % 2 ^ 17 := Nat.and_pow_two_sub_one_eq_mod x 17
  norm_num at h
  exact h

/-- `OutputWindow` from src/output_window.rs: a circular byte buffer `window`
(modelled as a total function on indices), the write cursor `end`
(named `endPos`, since `end` is a Lean keyword) and `bytes_used`, the number of
decoded bytes not yet drained. -/
structure OutputWindow where
  window : Nat → Nat
  endPos : Nat
  bytes_used : Nat

/-- A byte slice `&window[s..e]` of the window's backing array. -/
def winSlice (f : Nat → Nat) (s e : Nat) : List Nat :=
  (List.range (e - s)).map (fun j => f (s + j))

theorem winSlice_length (f : Nat → Nat) (s e : Nat) :
    (winSlice f s e).length = e - s := by
  simp [winSlice]

theorem winSlice_getD (f : Nat → Nat) (s e j : Nat) (h : j < e - s) :
    (winSlice f s e).getD j 0 = f (s + j) := by
  rw [winSlice, List.getD_eq_getElem _ _ (by simpa using h)]
  simp

/-- `MAX_HISTORY_DISTANCE` from `OutputWindow::get_checkpoint_data`. -/
def MAX_HISTORY_DISTANCE : Nat := 65538

/-- `OutputWindow::get_checkpoint_data` from src/output_window.rs: the one or
two window slices holding the last `min(65538, total_output_written)` bytes of
history together with all undrained bytes. -/
def OutputWindow.get_checkpoint_data (w : OutputWindow) (total_output_written : Nat) :
    List Nat × List Nat :=
  let history_needed := min MAX_HISTORY_DISTANCE total_output_written
  let data_len := max history_needed w.bytes_used
  let start := (w.endPos + WINDOW_SIZE - data_len) &&& WINDOW_MASK
  if data_len ≤ WINDOW_SIZE - start then
    (winSlice w.window start (start + data_len), [])
  else
    (winSlice w.window start WINDOW_SIZE, winSlice w.window 0 w.endPos)

/-- `OutputWindow::restore_from_checkpoint` from src/output_window.rs:
`window[..data.len()]` is overwritten with `data`, `end` becomes `data.len()`
and `bytes_used` is set to the given count. -/
def OutputWindow.restore_from_checkpoint (w : OutputWindow) (data : List Nat)
    (bytes_used : Nat) : OutputWindow :=
  { window := fun i => if i < data.length then data.getD i 0 else w.window i
    endPos := data.length
    bytes_used := bytes_used }

/-- C5: the two slices returned by `get_checkpoint_data(total_output_written)`
have total length `max(min(total_output_written, 65538), bytes_used)`. -/
theorem get_checkpoint_data_length (w : OutputWindow) (total : Nat)
    (hend : w.endPos < WINDOW_SIZE) (hbu : w.bytes_used ≤ WINDOW_SIZE)
    (hle : w.bytes_used ≤ total) :
    ((w.get_checkpoint_data total).1).length + ((w.get_checkpoint_data total).2).length
      = max (min total 65538) w.bytes_used := by
  simp only [OutputWindow.get_checkpoint_data, land_window_mask]
  simp only [WINDOW_SIZE, WINDOW_MASK, MAX_HISTORY_DISTANCE] at *
  split <;> simp only [winSlice_length, List.length_nil] <;> omega

/-- `OutputWindow::copy_to` from src/output_window.rs. The caller's buffer is
modelled by its length `outLen`; the result is the window after the drain, the
list of bytes copied into the buffer, and the returned count. The
`overflowing_sub`/`overflowing_add` on `usize` are the explicit `% U64`. -/
def OutputWindow.copy_to (w : OutputWindow) (outLen : Nat) :
    OutputWindow × List Nat × Nat :=
  let p :=
    if outLen > w.bytes_used then
      (w.endPos, w.bytes_used)
    else
      ((((w.endPos + U64 - w.bytes_used) % U64 + outLen) % U64) &&& WINDOW_MASK, outLen)
  let copy_end := p.1
  let len := p.2
  let copied := len
  let out :=
    if len > copy_end then
      winSlice w.window (WINDOW_SIZE - (len - copy_end)) WINDOW_SIZE ++
        winSlice w.window 0 copy_end
    else
      winSlice w.window (copy_end - len) copy_end
  ({ w with bytes_used := w.bytes_used - copied }, out, copied)

theorem copyOut_spec (f : Nat → Nat) (start copied : Nat)
    (hs : start < WINDOW_SIZE) (hc : copied ≤ WINDOW_SIZE) :
    ((if copied > (start + copied) % WINDOW_SIZE then
        winSlice f (WINDOW_SIZE - (copied - (start + copied) % WINDOW_SIZE)) WINDOW_SIZE ++
          winSlice f 0 ((start + copied) % WINDOW_SIZE)
      else
        winSlice f ((start + copied) % WINDOW_SIZE - copied) ((start + copied) % WINDOW_SIZE)).length
        = copied) ∧
    ∀ j, j < copied →
      (if copied > (start + copied) % WINDOW_SIZE then
        winSlice f (WINDOW_SIZE - (copied - (start + copied) % WINDOW_SIZE)) WINDOW_SIZE ++
          winSlice f 0 ((start + copied) % WINDOW_SIZE)
      else
        winSlice f ((start + copied) % WINDOW_SIZE - copied) ((start + copied) % WINDOW_SIZE)).getD j 0
        = f ((start + j) % WINDOW_SIZE) := by
  simp only [WINDOW_SIZE] at *
  rcases Nat.lt_or_ge (start + copied) 131072 with hlt | hge
  · -- no wrap: copy_end = start + copied ≥ copied, single slice
    rw [Nat.mod_eq_of_lt hlt]
    have hbranch : ¬ (copied > start + copied) := by omega
    rw [if_neg hbranch]
    constructor
    · rw [winSlice_length]; omega
    · intro j hj
      rw [winSlice_getD _ _ _ _ (by omega), Nat.mod_eq_of_lt (by omega)]
      congr 1
      omega
  · -- wrap: copy_end = start + copied - 131072 < copied, two slices
    have hmod : (start + copied) % 131072 = start + copied - 131072 := by omega
    rw [hmod]
    have hbranch : copied > start + copied - 131072 := by omega
    rw [if_pos hbranch]
    have hlen1 : (winSlice f (131072 - (copied - (start + copied - 131072))) 131072).length
        = 131072 - start := by rw [winSlice_length]; omega
    constructor
    · rw [List.length_append, hlen1, winSlice_length]; omega
    · intro j hj
      rcases Nat.lt_or_ge j (131072 - start) with hj1 | hj2
      · have hlt : j < (winSlice f (131072 - (copied - (start + copied - 131072))) 131072).length := by
          rw [hlen1]; omega
        rw [List.getD_append _ _ _ _ hlt]
        rw [winSlice_getD f (131072 - (copied - (start + copied - 131072))) 131072 j (by omega)]
        have hm : (start + j) % 131072 = start + j := Nat.mod_eq_of_lt (by omega)
        have harg : 131072 - (copied - (start + copied - 131072)) + j = start + j := by omega
        rw [hm, harg]
      · have hge2 : (winSlice f (131072 - (copied - (start + copied - 131072))) 131072).length ≤ j := by
          rw [hlen1]; omega
        rw [List.getD_append_right _ _ _ _ hge2]
        rw [hlen1, winSlice_getD f 0 (start + copied - 131072) (j - (131072 - start)) (by omega)]
        have hm2 : (start + j) % 131072 = start + j - 131072 := by omega
        have harg2 : 0 + (j - (131072 - start)) = start + j - 131072 := by omega
        rw [hm2, harg2]

/-- C7: `copy_to` drains exactly `min(outLen, bytes_used)` bytes, in FIFO order
starting from position `(end - bytes_used) mod 131072`, decrements `bytes_used`
by the count and returns it. -/
theorem copy_to_spec (w : OutputWindow) (outLen : Nat)
    (hend : w.endPos < WINDOW_SIZE) (hbu : w.bytes_used ≤ WINDOW_SIZE) :
    (w.copy_to outLen).2.2 = min outLen w.bytes_used ∧
    (w.copy_to outLen).2.1.length = min outLen w.bytes_used ∧
    (∀ j, j < min outLen w.bytes_used →
      (w.copy_to outLen).2.1.getD j 0
        = w.window ((w.endPos + WINDOW_SIZE - w.bytes_used + j) % WINDOW_SIZE)) ∧
    (w.copy_to outLen).1.bytes_used = w.bytes_used - min outLen w.bytes_used := by
  have hWdvd : (131072 : Nat) ∣ U64 := ⟨140737488355328, by norm_num [U64]⟩
  simp only [OutputWindow.copy_to]
  rcases Nat.lt_or_ge w.bytes_used outLen with hgt | hle
  · -- outLen > bytes_used: copy all bytes_used bytes, copy_end = end
    rw [if_pos hgt]
    have hmin : min outLen w.bytes_used = w.bytes_used := by omega
    have hce : w.endPos
        = ((w.endPos + WINDOW_SIZE - w.bytes_used) % WINDOW_SIZE + w.bytes_used) % WINDOW_SIZE := by
      rw [Nat.mod_add_mod]
      simp only [WINDOW_SIZE] at *
      omega
    obtain ⟨h1, h2⟩ := copyOut_spec w.window ((w.endPos + WINDOW_SIZE - w.bytes_used) % WINDOW_SIZE)
      w.bytes_used (Nat.mod_lt _ (by norm_num [WINDOW_SIZE])) hbu
    rw [← hce] at h1 h2
    refine ⟨by omega, ?_, ?_, by omega⟩
    · rw [hmin]; exact h1
    · intro j hj
      rw [h2 j (by omega), Nat.mod_add_mod]
  · -- outLen ≤ bytes_used: copy outLen bytes
    rw [if_neg (by omega)]
    have hmin : min outLen w.bytes_used = outLen := by omega
    have hce : (((w.endPos + U64 - w.bytes_used) % U64 + outLen) % U64) &&& WINDOW_MASK
        = ((w.endPos + WINDOW_SIZE - w.bytes_used) % WINDOW_SIZE + outLen) % WINDOW_SIZE := by
      rw [land_window_mask]
      simp only [WINDOW_SIZE, U64] at *
      omega
    rw [hce]
    have houtLe : outLen ≤ WINDOW_SIZE := by omega
    rw [Nat.mod_add_mod]
    obtain ⟨h1, h2⟩ := copyOut_spec w.window ((w.endPos + WINDOW_SIZE - w.bytes_used) % WINDOW_SIZE)
      outLen (Nat.mod_lt _ (by norm_num [WINDOW_SIZE])) houtLe
    rw [Nat.mod_add_mod] at h1 h2
    refine ⟨by omega, ?_, ?_, by omega⟩
    · rw [hmin]; exact h1
    · intro j hj
      rw [h2 j (by omega), Nat.mod_add_mod]

/-- The per-byte copy loop of `OutputWindow::write_length_distance`
(`for _ in 0..length { window[to] = window[from]; to = (to+1)&MASK; from = (from+1)&MASK }`),
returning the final window, `to` and `from`. -/
def wldLoop : (Nat → Nat) → Nat → Nat → Nat → (Nat → Nat) × Nat × Nat
  | win, dst, frm, 0 => (win, dst, frm)
  | win, dst, frm, k + 1 =>
    wldLoop (fun i => if i = dst then win frm else win i)
      ((dst + 1) &&& WINDOW_MASK) ((frm + 1) &&& WINDOW_MASK) k

/-- `OutputWindow::write_length_distance` from src/output_window.rs:
`from = end.wrapping_sub(distance) & WINDOW_MASK`, then the forward byte-by-byte
copy loop, then `end = dst` and `bytes_used += length`. -/
def OutputWindow.write_length_distance (w : OutputWindow) (length distance : Nat) :
    OutputWindow :=
  let bytes_used := w.bytes_used + length
  let frm := ((w.endPos + U64 - distance) % U64) &&& WINDOW_MASK
  let r := wldLoop w.window w.endPos frm length
  { window := r.1, endPos := r.2.1, bytes_used := bytes_used }

theorem wldLoop_to (k : Nat) : ∀ (win : Nat → Nat) (dst frm : Nat), dst < WINDOW_SIZE →
    (wldLoop win dst frm k).2.1 = (dst + k) % WINDOW_SIZE := by
  induction k with
  | zero =>
    intro win dst frm h
    simp only [wldLoop, WINDOW_SIZE] at *
    omega
  | succ k ih =>
    intro win dst frm h
    simp only [wldLoop, land_window_mask]
    rw [ih _ _ _ (Nat.mod_lt _ (by norm_num [WINDOW_SIZE]))]
    rw [Nat.mod_add_mod]
    have harg : dst + 1 + k = dst + (k + 1) := by omega
    rw [harg]

theorem wldLoop_untouched (k : Nat) : ∀ (win : Nat → Nat) (dst frm i : Nat),
    dst < WINDOW_SIZE → (∀ j, j < k → i ≠ (dst + j) % WINDOW_SIZE) →
    (wldLoop win dst frm k).1 i = win i := by
  induction k with
  | zero => intro win dst frm i _ _; rfl
  | succ k ih =>
    intro win dst frm i hto hne
    simp only [wldLoop, land_window_mask]
    rw [ih _ _ _ _ (Nat.mod_lt _ (by norm_num [WINDOW_SIZE]))]
    · have hi : i ≠ dst := by
        have := hne 0 (by omega)
        simpa [Nat.mod_eq_of_lt hto] using this
      simp [hi]
    · intro j hj
      have h2 := hne (j + 1) (by omega)
      rw [Nat.mod_add_mod]
      have harg : dst + 1 + j = dst + (j + 1) := by omega
      rw [harg]
      exact h2

theorem wldLoop_copy (d : Nat) (hd1 : 1 ≤ d) (hd2 : d ≤ 65536) (k : Nat) :
    ∀ (win : Nat → Nat) (dst : Nat), dst < WINDOW_SIZE → k ≤ WINDOW_SIZE →
    ∀ j, j < min k d →
    (wldLoop win dst ((dst + WINDOW_SIZE - d) % WINDOW_SIZE) k).1 ((dst + j) % WINDOW_SIZE)
      = win ((dst + WINDOW_SIZE - d + j) % WINDOW_SIZE) := by
  induction k with
  | zero => intro win dst _ _ j hj; omega
  | succ k ih =>
    intro win dst hdst hk j hj
    simp only [wldLoop, land_window_mask]
    have hfrm : ((dst + WINDOW_SIZE - d) % WINDOW_SIZE + 1) % WINDOW_SIZE
        = ((dst + 1) % WINDOW_SIZE + WINDOW_SIZE - d) % WINDOW_SIZE := by
      simp only [WINDOW_SIZE] at *
      omega
    rw [hfrm]
    rcases Nat.eq_zero_or_pos j with hj0 | hjpos
    · subst hj0
      have hd0 : (dst + 0) % WINDOW_SIZE = dst := by
        simp only [WINDOW_SIZE] at *
        omega
      rw [hd0]
      rw [wldLoop_untouched k _ _ _ dst (Nat.mod_lt _ (by norm_num [WINDOW_SIZE])) ?_]
      · simp
      · intro j' hj'
        rw [Nat.mod_add_mod]
        simp only [WINDOW_SIZE] at *
        omega
    · have hstep : (dst + j) % WINDOW_SIZE = ((dst + 1) % WINDOW_SIZE + (j - 1)) % WINDOW_SIZE := by
        rw [Nat.mod_add_mod]
        simp only [WINDOW_SIZE] at *
        omega
      rw [hstep]
      rw [ih _ _ (Nat.mod_lt _ (by norm_num [WINDOW_SIZE])) (by omega) (j - 1) (by omega)]
      have hpos : ((dst + 1) % WINDOW_SIZE + WINDOW_SIZE - d + (j - 1)) % WINDOW_SIZE
          = (dst + WINDOW_SIZE - d + j) % WINDOW_SIZE := by
        simp only [WINDOW_SIZE] at *
        omega
      rw [hpos]
      have hne : (dst + WINDOW_SIZE - d + j) % WINDOW_SIZE ≠ dst := by
        simp only [WINDOW_SIZE] at *
        omega
      simp [hne]

theorem wldLoop_dist1 (k : Nat) : ∀ (win : Nat → Nat) (dst : Nat), dst < WINDOW_SIZE →
    k ≤ WINDOW_SIZE → ∀ j, j < k →
    (wldLoop win dst ((dst + WINDOW_SIZE - 1) % WINDOW_SIZE) k).1 ((dst + j) % WINDOW_SIZE)
      = win ((dst + WINDOW_SIZE - 1) % WINDOW_SIZE) := by
  induction k with
  | zero => intro win dst _ _ j hj; omega
  | succ k ih =>
    intro win dst hdst hk j hj
    simp only [wldLoop, land_window_mask]
    have hfrm : ((dst + WINDOW_SIZE - 1) % WINDOW_SIZE + 1) % WINDOW_SIZE
        = ((dst + 1) % WINDOW_SIZE + WINDOW_SIZE - 1) % WINDOW_SIZE := by
      simp only [WINDOW_SIZE] at *
      omega
    rw [hfrm]
    rcases Nat.eq_zero_or_pos j with hj0 | hjpos
    · subst hj0
      have hd0 : (dst + 0) % WINDOW_SIZE = dst := by
        simp only [WINDOW_SIZE] at *
        omega
      rw [hd0]
      rw [wldLoop_untouched k _ _ _ dst (Nat.mod_lt _ (by norm_num [WINDOW_SIZE])) ?_]
      · simp
      · intro j' hj'
        rw [Nat.mod_add_mod]
        simp only [WINDOW_SIZE] at *
        omega
    · have hstep : (dst + j) % WINDOW_SIZE = ((dst + 1) % WINDOW_SIZE + (j - 1)) % WINDOW_SIZE := by
        rw [Nat.mod_add_mod]
        simp only [WINDOW_SIZE] at *
        omega
      rw [hstep]
      rw [ih _ _ (Nat.mod_lt _ (by norm_num [WINDOW_SIZE])) (by omega) (j - 1) (by omega)]
      have hback : ((dst + 1) % WINDOW_SIZE + WINDOW_SIZE - 1) % WINDOW_SIZE = dst := by
        simp only [WINDOW_SIZE] at *
        omega
      rw [hback]
      simp

theorem wrap_sub_mask (e d : Nat) (he : e < WINDOW_SIZE) (hd : d ≤ WINDOW_SIZE) :
    ((e + U64 - d) % U64) &&& WINDOW_MASK = (e + WINDOW_SIZE - d) % WINDOW_SIZE := by
  rw [land_window_mask]
  simp only [WINDOW_SIZE, U64] at *
  omega

/-- C8: under `bytes_used + length ≤ 131072` and `1 ≤ distance ≤ 65536`,
`write_length_distance` copies forward from `(end - distance) mod 131072`
(so with `distance = 1` every written byte equals the byte previously at
`(end - 1) mod 131072`), advances `end` by `length mod 131072` and increases
`bytes_used` by `length`. -/
theorem write_length_distance_spec (w : OutputWindow) (length distance : Nat)
    (hend : w.endPos < WINDOW_SIZE) (hd1 : 1 ≤ distance) (hd2 : distance ≤ 65536)
    (hlen : w.bytes_used + length ≤ WINDOW_SIZE) :
    (w.write_length_distance length distance).endPos = (w.endPos + length) % WINDOW_SIZE ∧
    (w.write_length_distance length distance).bytes_used = w.bytes_used + length ∧
    (∀ j, j < min length distance →
      (w.write_length_distance length distance).window ((w.endPos + j) % WINDOW_SIZE)
        = w.window ((w.endPos + WINDOW_SIZE - distance + j) % WINDOW_SIZE)) ∧
    (distance = 1 → ∀ j, j < length →
      (w.write_length_distance length distance).window ((w.endPos + j) % WINDOW_SIZE)
        = w.window ((w.endPos + WINDOW_SIZE - 1) % WINDOW_SIZE)) := by
  simp only [OutputWindow.write_length_distance]
  rw [wrap_sub_mask _ _ hend (by simp only [WINDOW_SIZE]; omega)]
  refine ⟨?_, by trivial, ?_, ?_⟩
  · exact wldLoop_to length w.window w.endPos _ hend
  · intro j hj
    exact wldLoop_copy distance hd1 hd2 length w.window w.endPos hend (by omega) j hj
  · intro h1 j hj
    subst h1
    exact wldLoop_dist1 length w.window w.endPos hend (by omega) j hj

/-- `fletcher32_checksum` from src/inflater_checkpoint_impl.rs (free function):
`a` and `b` are `u32` running sums with wrapping addition, combined as
`(b << 16) | (a & 0xFFFF)` (the `u32` shift wraps, hence the `% U32`). -/
def fletcher32_checksum (data : List Nat) : Nat :=
  let p := data.foldl
    (fun p byte => ((p.1 + byte) % U32, (p.2 + (p.1 + byte) % U32) % U32)) (0, 0)
  ((p.2 <<< 16) % U32) ||| (p.1 &&& 65535)

/-- `InflaterManaged::fletcher32_checksum` from
src/inflater_managed_checkpoint.rs (associated function); its body is
identical to the free function above. -/
def fletcher32_checksum_method (data : List Nat) : Nat :=
  let p := data.foldl
    (fun p byte => ((p.1 + byte) % U32, (p.2 + (p.1 + byte) % U32) % U32)) (0, 0)
  ((p.2 <<< 16) % U32) ||| (p.1 &&& 65535)

theorem fletcher32_checksum_method_eq : fletcher32_checksum_method = fletcher32_checksum := rfl

/-- The two running sums without any modular reduction. -/
def fletcherPureStep (p : Nat × Nat) (byte : Nat) : Nat × Nat :=
  (p.1 + byte, p.2 + (p.1 + byte))

/-- The generic one-byte step with both sums reduced modulo `m`. -/
def fletcherStepM (m : Nat) (p : Nat × Nat) (byte : Nat) : Nat × Nat :=
  ((p.1 + byte) % m, (p.2 + (p.1 + byte) % m) % m)

theorem fletcherStepM_foldl (m : Nat) (_hm : 0 < m) (l : List Nat) : ∀ a b : Nat,
    l.foldl (fletcherStepM m) (a % m, b % m)
      = ((l.foldl fletcherPureStep (a, b)).1 % m, (l.foldl fletcherPureStep (a, b)).2 % m) := by
  induction l with
  | nil => intro a b; rfl
  | cons x t ih =>
    intro a b
    simp only [List.foldl_cons]
    have h1 : fletcherStepM m (a % m, b % m) x = ((a + x) % m, (b + (a + x)) % m) := by
      simp only [fletcherStepM, Nat.mod_add_mod, Nat.add_mod_mod]
    have h2 : fletcherPureStep (a, b) x = (a + x, b + (a + x)) := rfl
    rw [h1, h2, ih (a + x) (b + (a + x))]

theorem fletcherPure_fst (l : List Nat) : ∀ a b : Nat,
    (l.foldl fletcherPureStep (a, b)).1 = a + l.sum := by
  induction l with
  | nil => intro a b; simp
  | cons x t ih =>
    intro a b
    simp only [List.foldl_cons, fletcherPureStep, List.sum_cons]
    rw [ih]
    omega

/-- The code's checksum in closed additive form: high half is the second sum
mod 2^16, low half the first sum mod 2^16. -/
theorem fletcher_pure_form (data : List Nat) :
    fletcher32_checksum data
      = ((data.foldl fletcherPureStep (0, 0)).2 % 65536) * 65536
        + (data.foldl fletcherPureStep (0, 0)).1 % 65536 := by
  simp only [fletcher32_checksum]
  rw [show (fun (p : Nat × Nat) (byte : Nat) =>
      ((p.1 + byte) % U32, (p.2 + (p.1 + byte) % U32) % U32)) = fletcherStepM U32 from rfl]
  rw [show ((0, 0) : Nat × Nat) = (((0 : Nat) % U32, (0 : Nat) % U32) : Nat × Nat) from rfl]
  rw [fletcherStepM_foldl U32 (by norm_num [U32]) data 0 0]
  simp only [Nat.zero_mod]
  set A := (data.foldl fletcherPureStep (0, 0)).1 with hAdef
  set B := (data.foldl fletcherPureStep (0, 0)).2 with hBdef
  have hd16 : (65536 : Nat) ∣ U32 := ⟨65536, by norm_num [U32]⟩
  have hhigh : ((B % U32) <<< 16) % U32 = (B % 65536) * 65536 := by
    rw [Nat.shiftLeft_eq]
    have h2 : (2 : Nat) ^ 16 = 65536 := by norm_num
    rw [h2]
    have h3 : U32 = 65536 * 65536 := by norm_num [U32]
    rw [h3, Nat.mul_mod_mul_right]
    rw [Nat.mod_mod_of_dvd B (by norm_num : (65536 : Nat) ∣ 65536 * 65536)]
  have hlow : (A % U32) &&& 65535 = A % 65536 := by
    have h : (A % U32) &&& 2 ^ 16 - 1 = (A % U32) % 2 ^ 16 := Nat.and_pow_two_sub_one_eq_mod _ 16
    norm_num at h
    rw [h, Nat.mod_mod_of_dvd A hd16]
  rw [hhigh, hlow]
  have hmodlt : A % 65536 < 2 ^ 16 := by
    have h : (2 : Nat) ^ 16 = 65536 := by norm_num
    rw [h]
    omega
  have hor := Nat.mul_add_lt_is_or (b := A % 65536) (i := 16) hmodlt (B % 65536)
  norm_num at hor
  rw [Nat.mul_comm 65536 (B % 65536)] at hor
  rw [← hor]

/-- Spec-words definition for C2: the classic Fletcher-32 in its 16-bit
modular form — two running sums each reduced modulo 65535, combined and
stored as `(b << 16) | (a & 0xFFFF)`. -/
def fletcher32_classic (data : List Nat) : Nat :=
  let p := data.foldl
    (fun p byte => ((p.1 + byte) % 65535, (p.2 + (p.1 + byte) % 65535) % 65535)) (0, 0)
  (p.2 <<< 16) ||| (p.1 &&& 65535)

/-- Amended-spec definition for C2: the same two-sum construction but with
each running sum reduced modulo 65536 (the reduction the code's wrapping
`u32` sums and 16-bit masking actually perform). -/
def fletcher32_mod65536 (data : List Nat) : Nat :=
  let p := data.foldl
    (fun p byte => ((p.1 + byte) % 65536, (p.2 + (p.1 + byte) % 65536) % 65536)) (0, 0)
  (p.2 <<< 16) ||| (p.1 &&& 65535)

/-- C2 counterexample: on 23 bytes of `0xFF` the code's checksum differs from
the classic (mod-65535) Fletcher-32; the code is not the classic form. -/
theorem fletcher32_not_classic :
    fletcher32_checksum (List.replicate 23 255)
      ≠ fletcher32_classic (List.replicate 23 255) := by
  decide

/-- C2 (amended): for every byte sequence, the code's `fletcher32_checksum`
equals the two-sum Fletcher construction with both running sums reduced
modulo 65536 (not 65535), combined as `(b << 16) | (a & 0xFFFF)`. -/
theorem fletcher32_checksum_eq_mod65536 (data : List Nat) :
    fletcher32_checksum data = fletcher32_mod65536 data := by
  rw [fletcher_pure_form]
  simp only [fletcher32_mod65536]
  rw [show (fun (p : Nat × Nat) (byte : Nat) =>
      ((p.1 + byte) % 65536, (p.2 + (p.1 + byte) % 65536) % 65536))
      = fletcherStepM 65536 from rfl]
  rw [show ((0, 0) : Nat × Nat) = (((0 : Nat) % 65536, (0 : Nat) % 65536) : Nat × Nat) from rfl]
  rw [fletcherStepM_foldl 65536 (by norm_num) data 0 0]
  simp only [Nat.zero_mod]
  set A := (data.foldl fletcherPureStep (0, 0)).1 with hAdef
  set B := (data.foldl fletcherPureStep (0, 0)).2 with hBdef
  have hhigh : (B % 65536) <<< 16 = (B % 65536) * 65536 := by
    rw [Nat.shiftLeft_eq]
  have hlow : (A % 65536) &&& 65535 = A % 65536 := by
    have h : (A % 65536) &&& 2 ^ 16 - 1 = (A % 65536) % 2 ^ 16 := Nat.and_pow_two_sub_one_eq_mod _ 16
    norm_num at h
    rw [h]
  rw [hhigh, hlow]
  have hmodlt : A % 65536 < 2 ^ 16 := by
    have h : (2 : Nat) ^ 16 = 65536 := by norm_num
    rw [h]
    omega
  have hor := Nat.mul_add_lt_is_or (b := A % 65536) (i := 16) hmodlt (B % 65536)
  norm_num at hor
  rw [Nat.mul_comm 65536 (B % 65536)] at hor
  rw [← hor]

/-- The low 16 bits of the code's checksum are the plain byte sum mod 2^16. -/
theorem fletcher_mod_sum (data : List Nat) :
    fletcher32_checksum data % 65536 = data.sum % 65536 := by
  rw [fletcher_pure_form]
  rw [fletcherPure_fst data 0 0]
  omega

/-- `SYMBOL_BITS` from src/huffman_tree.rs. -/
def SYMBOL_BITS : Nat := 10

/-- `TABLE_BITS` from src/huffman_tree.rs. -/
def TABLE_BITS : Nat := 9

/-- `nodes.len() = MAX_CODE_LENGTHS * 4 = 288 * 4`. -/
def NODES_LEN : Nat := 1152

/-- `pack` from src/huffman_tree.rs: `symbol | ((code_len as i16) << SYMBOL_BITS)`.
For the symbols (< 1024) and lengths (≤ 16) the code ever packs, the `i16`
bit-or equals the `Nat` bit-or of the two non-negative operands. -/
def pack (symbol : Nat) (code_len : Nat) : Int :=
  ((symbol ||| (code_len <<< SYMBOL_BITS) : Nat) : Int)

/-- `unpack` from src/huffman_tree.rs:
`((entry & SYMBOL_MASK) as u16, (entry >> SYMBOL_BITS) as i32)`. It is only
invoked on leaf entries, which are non-negative, where the `i16` mask and
arithmetic shift agree with these `Nat` operations. -/
def unpack (entry : Int) : Nat × Int :=
  (entry.toNat &&& 1023, ((entry.toNat >>> SYMBOL_BITS : Nat) : Int))

/-- `u32::reverse_bits`. -/
def reverse_bits_u32 (c : Nat) : Nat :=
  (List.range 32).foldl (fun acc i => acc ||| (if c.testBit i then 1 <<< (31 - i) else 0)) 0

/-- `HuffmanTree::bit_reverse` from src/huffman_tree.rs:
`code.reverse_bits() >> (32 - length)`. -/
def bit_reverse (code : Nat) (length : Nat) : Nat :=
  reverse_bits_u32 code >>> (32 - length)

/-- The `bit_length_count` array of `calculate_huffman_code`: occurrences of
each length among the code lengths, with index 0 cleared. -/
def bitLengthCount (code_lengths : List Nat) (bits : Nat) : Nat :=
  if bits = 0 then 0 else (code_lengths.filter (fun l => l = bits)).length

/-- The `temp_code`/`next_code` recurrence of `calculate_huffman_code`:
`next_code[bits] = (next_code[bits-1] + count[bits-1]) << 1`. -/
def tempCode (blc : Nat → Nat) : Nat → Nat
  | 0 => 0
  | b + 1 => (tempCode blc b + blc b) <<< 1

/-- The final loop of `calculate_huffman_code`: assign each nonzero-length
symbol (in input order) the next code of its length, bit-reversed. -/
def assignCodes : (Nat → Nat) → List Nat → Nat → (Nat → Nat) → (Nat → Nat)
  | _, [], _, code => code
  | nc, len :: rest, i, code =>
    if 0 < len then
      assignCodes (fun l => if l = len then nc l + 1 else nc l) rest (i + 1)
        (fun j => if j = i then bit_reverse (nc len) len else code j)
    else assignCodes nc rest (i + 1) code

/-- `HuffmanTree::calculate_huffman_code` from src/huffman_tree.rs, as the
function from symbol index to its assigned (bit-reversed) code. -/
def calculate_huffman_code (code_lengths : List Nat) : Nat → Nat :=
  assignCodes (tempCode (bitLengthCount code_lengths)) code_lengths 0 (fun _ => 0)

/-- The mutable state of `create_table`: the 512-entry lookup table, the node
pool, and the `avail` counter (which starts at 1). -/
structure TableState where
  table : Nat → Int
  nodes : Nat → Int
  avail : Int

/-- The three `InvalidHuffmanData` exits of `create_table`, tagged with what
the code observed at the error site (the code itself collapses all three to
`InternalErr::DataError`). -/
inductive TErr where
  | shortCollision (ch len start : Nat)
  | leafOverwrite (v : Int)
  | poolOverrun (index : Nat)

/-- The table-filling loop for codes of length ≤ 9:
`for _ in 0..locs { table[start] = pack(ch, len); start += increment }`. -/
def fillTable (v : Int) : (Nat → Int) → Nat → Nat → Nat → (Nat → Int)
  | tbl, _, _, 0 => tbl
  | tbl, start, incr, locs + 1 =>
    fillTable v (fun i => if i = start then v else tbl i) (start + incr) incr locs

/-- One iteration of the do-while descent body of `create_table`: read the
entry at `index` (table if `in_t`, node pool otherwise), allocate a fresh
internal pointer `-(avail*2)` if it is unused, fail on a positive (leaf)
entry, compute the child index from the current code bit, and fail if it
overruns the node pool. -/
def descendEntry (ts : TableState) (index : Nat) (in_t : Bool) : Int :=
  if in_t then ts.table index else ts.nodes index

/-- `*value = -(avail * 2); avail += 1` on the entry selected by `in_t`. -/
def descendWrite (ts : TableState) (index : Nat) (in_t : Bool) (v : Int) : TableState :=
  if in_t then
    { ts with table := fun i => if i = index then v else ts.table i, avail := ts.avail + 1 }
  else
    { ts with nodes := fun i => if i = index then v else ts.nodes i, avail := ts.avail + 1 }

def descendStep (ts : TableState) (start mask index : Nat) (in_t : Bool) :
    Except TErr (TableState × Nat) :=
  let v : Int := if descendEntry ts index in_t = 0 then -(ts.avail * 2)
    else descendEntry ts index in_t
  let ts1 : TableState :=
    if descendEntry ts index in_t = 0 then descendWrite ts index in_t v else ts
  if 0 < v then .error (.leafOverwrite v)
  else
    let index2 := (-v).toNat + (if start &&& mask ≠ 0 then 1 else 0)
    if NODES_LEN ≤ index2 then .error (.poolOverrun index2) else .ok (ts1, index2)

/-- The do-while descent loop of `create_table` for codes longer than 9 bits,
run `overflow_bits` times; returns the state and the final node index to
receive the leaf. -/
def descendLoop : TableState → Nat → Nat → Nat → Bool → Nat → Except TErr (TableState × Nat)
  | ts, _, _, index, _, 0 => .ok (ts, index)
  | ts, start, mask, index, in_t, k + 1 =>
    match descendStep ts start mask index in_t with
    | .error e => .error e
    | .ok (ts1, index2) => descendLoop ts1 start (mask <<< 1) index2 false k

/-- The per-symbol body of `create_table` (the `if len > 0` branch). -/
def insertSymbol (ts : TableState) (ch len start : Nat) : Except TErr TableState :=
  if len ≤ TABLE_BITS then
    if 1 <<< len ≤ start then .error (.shortCollision ch len start)
    else .ok { ts with
      table := fillTable (pack ch len) ts.table start (1 <<< len) (1 <<< (TABLE_BITS - len)) }
  else
    match descendLoop ts start (1 <<< TABLE_BITS) (start &&& ((1 <<< TABLE_BITS) - 1)) true
        (len - TABLE_BITS) with
    | .error e => .error e
    | .ok (ts1, idx) =>
      .ok { ts1 with nodes := fun i => if i = idx then pack ch len else ts1.nodes i }

/-- The enumerated symbol loop of `create_table`. -/
def createTableGo (code_array : Nat → Nat) : TableState → Nat → List Nat → Except TErr TableState
  | ts, _, [] => .ok ts
  | ts, ch, len :: rest =>
    if 0 < len then
      match insertSymbol ts ch len (code_array ch) with
      | .error e => .error e
      | .ok ts2 => createTableGo code_array ts2 (ch + 1) rest
    else createTableGo code_array ts (ch + 1) rest

/-- `HuffmanTree::create_table` from src/huffman_tree.rs, acting on the given
code-length vector with fresh zeroed table/node arrays and `avail = 1`. -/
def create_table (code_lengths : List Nat) : Except TErr TableState :=
  createTableGo (calculate_huffman_code code_lengths) ⟨fun _ => 0, fun _ => 0, 1⟩ 0 code_lengths

/-- `HuffmanTree` from src/huffman_tree.rs (arrays as total functions; the
stored `code_length_array` is the input padded with zeros to 288 entries). -/
structure HuffmanTree where
  code_lengths_length : Nat
  table : Nat → Int
  nodes : Nat → Int
  code_length_array : List Nat

/-- `HuffmanTree::invalid()`. -/
def HuffmanTree.invalid : HuffmanTree :=
  ⟨0, fun _ => 0, fun _ => 0, List.replicate 288 0⟩

/-- `HuffmanTree::new` from src/huffman_tree.rs (`InternalErr::DataError`,
i.e. `InvalidHuffmanData`, is collapsed to `()`). `new_in_place` zeroes the
arrays and runs the same construction, so it is this same function. -/
def HuffmanTree.new (code_lengths : List Nat) : Except Unit HuffmanTree :=
  match create_table code_lengths with
  | .error _ => .error ()
  | .ok ts => .ok
    { code_lengths_length := code_lengths.length
      table := ts.table
      nodes := ts.nodes
      code_length_array := code_lengths ++ List.replicate (288 - code_lengths.length) 0 }

/-- Modelled from the spec: `HuffmanTree::code_lengths()` (defined in source
files missing from src/, used by `checkpoint()`) returns the tree's stored
code-length vector `code_length_array[..code_lengths_length]`. -/
def HuffmanTree.code_lengths (t : HuffmanTree) : List Nat :=
  t.code_length_array.take t.code_lengths_length

/-- `get_static_literal_tree_length` from src/huffman_tree.rs. -/
def static_literal_tree_lengths : List Nat :=
  List.replicate 144 8 ++ List.replicate 112 9 ++ List.replicate 24 7 ++ List.replicate 8 8

/-- `get_static_distance_tree_length` from src/huffman_tree.rs. -/
def static_distance_tree_lengths : List Nat := List.replicate 32 5

/-- `HuffmanTree::static_literal_length_tree()`; the `unwrap` never fails on
the RFC 1951 static table. -/
def HuffmanTree.static_literal_length_tree : HuffmanTree :=
  (HuffmanTree.new static_literal_tree_lengths).toOption.getD HuffmanTree.invalid

/-- `HuffmanTree::static_distance_tree()`. -/
def HuffmanTree.static_distance_tree : HuffmanTree :=
  (HuffmanTree.new static_distance_tree_lengths).toOption.getD HuffmanTree.invalid


theorem descendStep_no_short (ts : TableState) (start mask index : Nat) (in_t : Bool)
    (c l s : Nat) : descendStep ts start mask index in_t ≠ .error (.shortCollision c l s) := by
  unfold descendStep
  by_cases hv : descendEntry ts index in_t = 0 <;> simp only [hv, if_true, if_false, reduceIte] <;>
    repeat' split
  all_goals simp

theorem descendStep_pool (ts : TableState) (start mask index : Nat) (in_t : Bool) (i : Nat)
    (h : descendStep ts start mask index in_t = .error (.poolOverrun i)) : NODES_LEN ≤ i := by
  unfold descendStep at h
  by_cases hv : descendEntry ts index in_t = 0 <;> simp only [hv, reduceIte] at h <;>
    repeat' split at h
  all_goals simp_all
  all_goals omega

theorem descendStep_leaf (ts : TableState) (start mask index : Nat) (in_t : Bool) (v : Int)
    (h : descendStep ts start mask index in_t = .error (.leafOverwrite v)) : 0 < v := by
  unfold descendStep at h
  by_cases hv : descendEntry ts index in_t = 0 <;> simp only [hv, reduceIte] at h <;>
    repeat' split at h
  all_goals simp_all
  all_goals omega

theorem descendLoop_no_short (k : Nat) : ∀ ts start mask index in_t c l s,
    descendLoop ts start mask index in_t k ≠ .error (.shortCollision c l s) := by
  induction k with
  | zero => intro ts start mask index in_t c l s; simp [descendLoop]
  | succ k ih =>
    intro ts start mask index in_t c l s
    simp only [descendLoop]
    split
    · rename_i e heq
      intro hcontra
      simp only [Except.error.injEq] at hcontra
      rw [hcontra] at heq
      exact descendStep_no_short _ _ _ _ _ _ _ _ heq
    · exact ih _ _ _ _ _ _ _ _

theorem descendLoop_pool (k : Nat) : ∀ ts start mask index in_t i,
    descendLoop ts start mask index in_t k = .error (.poolOverrun i) → NODES_LEN ≤ i := by
  induction k with
  | zero => intro ts start mask index in_t i h; simp [descendLoop] at h
  | succ k ih =>
    intro ts start mask index in_t i h
    simp only [descendLoop] at h
    split at h
    · rename_i e heq
      simp only [Except.error.injEq] at h
      rw [h] at heq
      exact descendStep_pool _ _ _ _ _ _ heq
    · exact ih _ _ _ _ _ _ h

theorem descendLoop_leaf (k : Nat) : ∀ ts start mask index in_t v,
    descendLoop ts start mask index in_t k = .error (.leafOverwrite v) → 0 < v := by
  induction k with
  | zero => intro ts start mask index in_t v h; simp [descendLoop] at h
  | succ k ih =>
    intro ts start mask index in_t v h
    simp only [descendLoop] at h
    split at h
    · rename_i e heq
      simp only [Except.error.injEq] at h
      rw [h] at heq
      exact descendStep_leaf _ _ _ _ _ _ heq
    · exact ih _ _ _ _ _ _ h

theorem insertSymbol_short (ts : TableState) (ch len start c l s : Nat)
    (h : insertSymbol ts ch len start = .error (.shortCollision c l s)) :
    c = ch ∧ l = len ∧ s = start ∧ len ≤ 9 ∧ 2 ^ len ≤ start := by
  unfold insertSymbol at h
  split at h
  · split at h
    · simp only [Except.error.injEq, TErr.shortCollision.injEq] at h
      have hsh : (1 : Nat) <<< len = 2 ^ len := by
        rw [Nat.shiftLeft_eq, Nat.one_mul]
      rename_i hle hst
      simp only [TABLE_BITS] at hle
      omega
    · simp at h
  · split at h
    · rename_i heq
      simp only [Except.error.injEq] at h
      rw [h] at heq
      exact absurd heq (descendLoop_no_short _ _ _ _ _ _ _ _ _)
    · simp at h

theorem insertSymbol_pool (ts : TableState) (ch len start i : Nat)
    (h : insertSymbol ts ch len start = .error (.poolOverrun i)) : NODES_LEN ≤ i := by
  unfold insertSymbol at h
  split at h
  · split at h <;> simp at h
  · split at h
    · rename_i heq
      simp only [Except.error.injEq] at h
      rw [h] at heq
      exact descendLoop_pool _ _ _ _ _ _ _ heq
    · simp at h

theorem insertSymbol_leaf (ts : TableState) (ch len start : Nat) (v : Int)
    (h : insertSymbol ts ch len start = .error (.leafOverwrite v)) : 0 < v := by
  unfold insertSymbol at h
  split at h
  · split at h <;> simp at h
  · split at h
    · rename_i heq
      simp only [Except.error.injEq] at h
      rw [h] at heq
      exact descendLoop_leaf _ _ _ _ _ _ _ heq
    · simp at h

theorem createTableGo_short (rest : List Nat) : ∀ (ca : Nat → Nat) ts ch c l s,
    createTableGo ca ts ch rest = .error (.shortCollision c l s) →
    s = ca c ∧ ch ≤ c ∧ rest.getD (c - ch) 0 = l ∧ l ≤ 9 ∧ 2 ^ l ≤ s := by
  induction rest with
  | nil => intro ca ts ch c l s h; simp [createTableGo] at h
  | cons len rest ih =>
    intro ca ts ch c l s h
    simp only [createTableGo] at h
    split at h
    · split at h
      · rename_i heq
        simp only [Except.error.injEq] at h
        rw [h] at heq
        obtain ⟨h1, h2, h3, h4, h5⟩ := insertSymbol_short _ _ _ _ _ _ _ heq
        subst h1
        subst h2
        subst h3
        refine ⟨rfl, Nat.le_refl _, ?_, h4, h5⟩
        simp
      · obtain ⟨h1, h2, h3, h4, h5⟩ := ih _ _ _ _ _ _ h
        refine ⟨h1, by omega, ?_, h4, h5⟩
        have hc : c - ch = (c - (ch + 1)) + 1 := by omega
        rw [hc, List.getD_cons_succ]
        exact h3
    · obtain ⟨h1, h2, h3, h4, h5⟩ := ih _ _ _ _ _ _ h
      refine ⟨h1, by omega, ?_, h4, h5⟩
      have hc : c - ch = (c - (ch + 1)) + 1 := by omega
      rw [hc, List.getD_cons_succ]
      exact h3

theorem createTableGo_pool (rest : List Nat) : ∀ (ca : Nat → Nat) ts ch i,
    createTableGo ca ts ch rest = .error (.poolOverrun i) → NODES_LEN ≤ i := by
  induction rest with
  | nil => intro ca ts ch i h; simp [createTableGo] at h
  | cons len rest ih =>
    intro ca ts ch i h
    simp only [createTableGo] at h
    split at h
    · split at h
      · rename_i heq
        simp only [Except.error.injEq] at h
        rw [h] at heq
        exact insertSymbol_pool _ _ _ _ _ heq
      · exact ih _ _ _ _ h
    · exact ih _ _ _ _ h

theorem createTableGo_leaf (rest : List Nat) : ∀ (ca : Nat → Nat) ts ch v,
    createTableGo ca ts ch rest = .error (.leafOverwrite v) → 0 < v := by
  induction rest with
  | nil => intro ca ts ch v h; simp [createTableGo] at h
  | cons len rest ih =>
    intro ca ts ch v h
    simp only [createTableGo] at h
    split at h
    · split at h
      · rename_i heq
        simp only [Except.error.injEq] at h
        rw [h] at heq
        exact insertSymbol_leaf _ _ _ _ _ heq
      · exact ih _ _ _ _ h
    · exact ih _ _ _ _ h

/-- C6: over the three alphabet sizes with entries ≤ 16, `HuffmanTree::new`
fails with `InvalidHuffmanData` exactly when `create_table` hits one of its
three error exits: (a) a short code (`len ≤ 9`) whose bit-reversed canonical
code `start` satisfies `start ≥ 1 << len`, (b) a descent child index at or
past the node-pool length, or (c) a descent reaching a positive (leaf) entry;
otherwise construction succeeds. -/
theorem huffman_new_error_iff (ls : List Nat)
    (_hsize : ls.length = 19 ∨ ls.length = 32 ∨ ls.length = 288)
    (_hent : ∀ x ∈ ls, x ≤ 16) :
    (HuffmanTree.new ls = .error () ↔
      ((∃ ch len start, create_table ls = .error (.shortCollision ch len start)) ∨
       (∃ v, create_table ls = .error (.leafOverwrite v)) ∨
       (∃ i, create_table ls = .error (.poolOverrun i)))) ∧
    (∀ ch len start, create_table ls = .error (.shortCollision ch len start) →
      len ≤ 9 ∧ 2 ^ len ≤ start ∧ start = calculate_huffman_code ls ch ∧ ls.getD ch 0 = len) ∧
    (∀ v, create_table ls = .error (.leafOverwrite v) → 0 < v) ∧
    (∀ i, create_table ls = .error (.poolOverrun i) → NODES_LEN ≤ i) ∧
    ((∀ e, create_table ls ≠ .error e) → ∃ t, HuffmanTree.new ls = .ok t) := by
  refine ⟨?_, ?_, ?_, ?_, ?_⟩
  · cases hc : create_table ls with
    | error e =>
      cases e <;> simp [HuffmanTree.new, hc]
    | ok ts => simp [HuffmanTree.new, hc]
  · intro ch len start h
    obtain ⟨h1, h2, h3, h4, h5⟩ := createTableGo_short ls _ _ _ _ _ _ h
    refine ⟨h4, h5, h1, ?_⟩
    simpa using h3
  · intro v h
    exact createTableGo_leaf ls _ _ _ _ h
  · intro i h
    exact createTableGo_pool ls _ _ _ _ h
  · intro hne
    cases hc : create_table ls with
    | error e => exact absurd hc (hne e)
    | ok ts =>
      refine ⟨⟨ls.length, ts.table, ts.nodes, ls ++ List.replicate (288 - ls.length) 0⟩, ?_⟩
      simp [HuffmanTree.new, hc]

/-- Invariant of `create_table` construction: every strictly positive (leaf)
entry of the table or node pool is `pack s l` for a symbol `s < 288` and an
actual code length `1 ≤ l ≤ 16`, and `avail ≥ 1`. -/
def leafInv (ts : TableState) : Prop :=
  (∀ i, 0 < ts.table i → ∃ s l, s < 288 ∧ 1 ≤ l ∧ l ≤ 16 ∧ ts.table i = pack s l) ∧
  (∀ i, 0 < ts.nodes i → ∃ s l, s < 288 ∧ 1 ≤ l ∧ l ≤ 16 ∧ ts.nodes i = pack s l) ∧
  1 ≤ ts.avail

theorem fillTable_cases (v : Int) (locs : Nat) : ∀ (tbl : Nat → Int) (start incr i : Nat),
    fillTable v tbl start incr locs i = v ∨ fillTable v tbl start incr locs i = tbl i := by
  induction locs with
  | zero => intro tbl start incr i; right; rfl
  | succ locs ih =>
    intro tbl start incr i
    simp only [fillTable]
    rcases ih (fun j => if j = start then v else tbl j) (start + incr) incr i with h | h
    · left; exact h
    · rw [h]
      by_cases hi : i = start
      · left; simp [hi]
      · right; simp [hi]


theorem descendWrite_inv (ts : TableState) (index : Nat) (in_t : Bool) (v : Int)
    (hv : v ≤ 0) (hinv : leafInv ts) : leafInv (descendWrite ts index in_t v) := by
  obtain ⟨ht, hn, ha⟩ := hinv
  unfold descendWrite
  cases in_t
  · simp only [Bool.false_eq_true, if_false]
    refine ⟨ht, ?_, ?_⟩
    · intro i hi
      have hi' : 0 < (if i = index then v else ts.nodes i) := hi
      by_cases hieq : i = index
      · rw [if_pos hieq] at hi'
        omega
      · rw [if_neg hieq] at hi'
        obtain ⟨s, l, hs, h1, h2, h3⟩ := hn i hi'
        refine ⟨s, l, hs, h1, h2, ?_⟩
        show (if i = index then v else ts.nodes i) = pack s l
        rw [if_neg hieq]
        exact h3
    · show 1 ≤ ts.avail + 1
      omega
  · simp only [if_true]
    refine ⟨?_, hn, ?_⟩
    · intro i hi
      have hi' : 0 < (if i = index then v else ts.table i) := hi
      by_cases hieq : i = index
      · rw [if_pos hieq] at hi'
        omega
      · rw [if_neg hieq] at hi'
        obtain ⟨s, l, hs, h1, h2, h3⟩ := ht i hi'
        refine ⟨s, l, hs, h1, h2, ?_⟩
        show (if i = index then v else ts.table i) = pack s l
        rw [if_neg hieq]
        exact h3
    · show 1 ≤ ts.avail + 1
      omega

theorem descendStep_inv (ts : TableState) (start mask index : Nat) (in_t : Bool)
    (ts1 : TableState) (i2 : Nat) (hinv : leafInv ts)
    (h : descendStep ts start mask index in_t = .ok (ts1, i2)) : leafInv ts1 := by
  have ha := hinv.2.2
  unfold descendStep at h
  by_cases hv : descendEntry ts index in_t = 0 <;> simp only [hv, reduceIte] at h <;>
    repeat' split at h
  all_goals first
    | (exfalso; simp at h; done)
    | (simp only [Except.ok.injEq, Prod.mk.injEq] at h
       obtain ⟨h1, _⟩ := h
       rw [← h1]
       first
         | exact descendWrite_inv _ _ _ _ (by omega) hinv
         | exact hinv)

theorem descendLoop_inv (k : Nat) : ∀ ts start mask index in_t ts1 i2, leafInv ts →
    descendLoop ts start mask index in_t k = .ok (ts1, i2) → leafInv ts1 := by
  induction k with
  | zero =>
    intro ts start mask index in_t ts1 i2 hinv h
    simp only [descendLoop, Except.ok.injEq, Prod.mk.injEq] at h
    obtain ⟨h1, _⟩ := h
    rw [← h1]
    exact hinv
  | succ k ih =>
    intro ts start mask index in_t ts1 i2 hinv h
    simp only [descendLoop] at h
    cases hstep : descendStep ts start mask index in_t with
    | error e => rw [hstep] at h; simp at h
    | ok p =>
      obtain ⟨tsm, im⟩ := p
      rw [hstep] at h
      exact ih _ _ _ _ _ _ _ (descendStep_inv _ _ _ _ _ _ _ hinv hstep) h

theorem insertSymbol_inv (ts : TableState) (ch len start : Nat) (ts2 : TableState)
    (hch : ch < 288) (hl1 : 1 ≤ len) (hl2 : len ≤ 16) (hinv : leafInv ts)
    (h : insertSymbol ts ch len start = .ok ts2) : leafInv ts2 := by
  obtain ⟨ht, hn, ha⟩ := hinv
  unfold insertSymbol at h
  split at h
  · split at h
    · simp at h
    · simp only [Except.ok.injEq] at h
      rw [← h]
      refine ⟨?_, hn, ha⟩
      intro i hi
      have hi' : 0 < fillTable (pack ch len) ts.table start (1 <<< len)
          (1 <<< (TABLE_BITS - len)) i := hi
      rcases fillTable_cases (pack ch len) (1 <<< (TABLE_BITS - len)) ts.table start (1 <<< len) i
        with hc | hc
      · exact ⟨ch, len, hch, hl1, hl2, hc⟩
      · rw [hc] at hi'
        obtain ⟨s, l, hs, h1, h2, h3⟩ := ht i hi'
        refine ⟨s, l, hs, h1, h2, ?_⟩
        show fillTable (pack ch len) ts.table start (1 <<< len) (1 <<< (TABLE_BITS - len)) i
          = pack s l
        rw [hc]
        exact h3
  · cases hdl : descendLoop ts start (1 <<< TABLE_BITS) (start &&& ((1 <<< TABLE_BITS) - 1)) true
        (len - TABLE_BITS) with
    | error e => rw [hdl] at h; simp at h
    | ok p =>
      obtain ⟨ts1, idx⟩ := p
      rw [hdl] at h
      simp only [Except.ok.injEq] at h
      rw [← h]
      obtain ⟨ht1, hn1, ha1⟩ := descendLoop_inv _ _ _ _ _ _ _ _ ⟨ht, hn, ha⟩ hdl
      refine ⟨ht1, ?_, ha1⟩
      intro i hi
      have hi' : 0 < (if i = idx then pack ch len else ts1.nodes i) := hi
      by_cases hieq : i = idx
      · refine ⟨ch, len, hch, hl1, hl2, ?_⟩
        show (if i = idx then pack ch len else ts1.nodes i) = pack ch len
        rw [if_pos hieq]
      · rw [if_neg hieq] at hi'
        obtain ⟨s, l, hs, h1, h2, h3⟩ := hn1 i hi'
        refine ⟨s, l, hs, h1, h2, ?_⟩
        show (if i = idx then pack ch len else ts1.nodes i) = pack s l
        rw [if_neg hieq]
        exact h3

theorem createTableGo_inv (rest : List Nat) : ∀ (ca : Nat → Nat) ts ch ts2, leafInv ts →
    (∀ x ∈ rest, x ≤ 16) → ch + rest.length ≤ 288 →
    createTableGo ca ts ch rest = .ok ts2 → leafInv ts2 := by
  induction rest with
  | nil =>
    intro ca ts ch ts2 hinv _ _ h
    simp only [createTableGo, Except.ok.injEq] at h
    rw [← h]
    exact hinv
  | cons len rest ih =>
    intro ca ts ch ts2 hinv hbound hlen h
    simp only [createTableGo] at h
    simp only [List.length_cons] at hlen
    split at h
    · rename_i hpos
      cases hins : insertSymbol ts ch len (ca ch) with
      | error e => rw [hins] at h; simp at h
      | ok tsn =>
        rw [hins] at h
        refine ih _ _ _ _ ?_ (fun x hx => hbound x (by simp [hx])) (by omega) h
        exact insertSymbol_inv _ _ _ _ _ (by omega) (by omega) (hbound len (by simp)) hinv hins
    · exact ih _ _ _ _ hinv (fun x hx => hbound x (by simp [hx])) (by omega) h

/-- C9: every leaf entry stored by the construction is a non-negative packed
value whose low 10 bits are the symbol (< 288) and whose bits 10–13 are the
actual code length (1–16); and `pack`/`unpack` round-trip on that range. -/
theorem pack_unpack_leaves :
    (∀ s, s < 288 → ∀ l, l < 17 → 1 ≤ l →
      0 ≤ pack s l ∧ unpack (pack s l) = (s, (l : Int))) ∧
    (∀ ls t, (ls.length = 19 ∨ ls.length = 32 ∨ ls.length = 288) → (∀ x ∈ ls, x ≤ 16) →
      HuffmanTree.new ls = .ok t →
      (∀ i, 0 < t.table i → ∃ s l, s < 288 ∧ 1 ≤ l ∧ l ≤ 16 ∧ t.table i = pack s l) ∧
      (∀ i, 0 < t.nodes i → ∃ s l, s < 288 ∧ 1 ≤ l ∧ l ≤ 16 ∧ t.nodes i = pack s l)) := by
  constructor
  · decide
  · intro ls t hsize hent hok
    unfold HuffmanTree.new at hok
    cases hc : create_table ls with
    | error e => rw [hc] at hok; simp at hok
    | ok ts =>
      rw [hc] at hok
      simp only [Except.ok.injEq] at hok
      unfold create_table at hc
      have hinv0 : leafInv ⟨fun _ => 0, fun _ => 0, 1⟩ := by
        refine ⟨?_, ?_, by norm_num⟩ <;> intro i hi <;> simp at hi
      have hinv := createTableGo_inv ls _ _ _ _ hinv0 hent
        (by rcases hsize with h | h | h <;> omega) hc
      rw [← hok]
      exact ⟨hinv.1, hinv.2.1⟩

/-- `uXX::from_le_bytes` on a little-endian byte list. -/
def leNum : List Nat → Nat
  | [] => 0
  | b :: t => b + 256 * leNum t

/-- `to_le_bytes`: the `n`-byte little-endian encoding of `v`. -/
def leBytes : Nat → Nat → List Nat
  | 0, _ => []
  | n + 1, v => v % 256 :: leBytes n (v / 256)

/-- `BlockType` (defined in inflater_managed.rs, which is not under src/;
discriminants 0/1/2 follow the btype wire encoding, spec §4.4). -/
inductive BlockType where
  | Uncompressed
  | Static
  | Dynamic
deriving DecidableEq

/-- Modelled from the spec: `BlockType::from_int` (missing inflater_managed.rs)
maps the btype values 0/1/2 to the three block types; any other value — in
particular the reserved type 3 — yields `None` (spec §4.4 / glossary). -/
def BlockType.from_int (v : Nat) : Option BlockType :=
  if v = 0 then some BlockType.Uncompressed
  else if v = 1 then some BlockType.Static
  else if v = 2 then some BlockType.Dynamic
  else none

/-- `InflaterState` (missing inflater_managed.rs; the states listed in
spec §4.4). -/
inductive InflaterState where
  | ReadingBFinal
  | ReadingBType
  | ReadingUncompressedHeader
  | DecodingUncompressed
  | ReadingNumLitCodes
  | ReadingNumDistCodes
  | ReadingNumCodeLengthCodes
  | ReadingCodeLengthCodes
  | ReadingTreeCodesBefore
  | ReadingTreeCodesAfter
  | DecodeTop
  | HaveInitialLength
  | HaveFullLength
  | HaveDistCode
  | Done
deriving DecidableEq

/-- `BitsBuffer` (missing input_buffer.rs; the two fields used by the
checkpoint code: the bit reservoir value and its valid-bit count). -/
structure BitsBuffer where
  bit_buffer : Nat
  bits_in_buffer : Nat
deriving DecidableEq

/-- Modelled from the spec: `BitsBuffer::from_bits(value, n)` "masks off
invalid high bits" of the reservoir and sets `bits_in_buffer = n`. -/
def BitsBuffer.from_bits (value : Nat) (n : Nat) : BitsBuffer :=
  ⟨value &&& ((1 <<< n) - 1), n⟩

/-- `CheckpointStreamPositions` from the checkpoint API. -/
structure CheckpointStreamPositions where
  input_bytes_to_skip : Nat
  output_bytes_already_returned : Nat
deriving DecidableEq

/-- `TABLE_LOOKUP_DISTANCE_MAX` (missing src constant): 65538, matching
`MAX_HISTORY_DISTANCE` and the spec's window-length formula. -/
def TABLE_LOOKUP_DISTANCE_MAX : Nat := 65538

/-- `CHECKPOINT_HEADER_SIZE` from both checkpoint files. -/
def CHECKPOINT_HEADER_SIZE : Nat := 346

/-- `OutputWindow::available_bytes`. -/
def OutputWindow.available_bytes (w : OutputWindow) : Nat := w.bytes_used

/-- The subset of `InflaterManaged`'s fields read or written by the two
checkpoint files (the struct lives in inflater_managed.rs, which is not under
src/; fields modelled from spec §3 and their uses in the checkpoint code).
`uncompressed_size` is `usize::MAX` when no output-size limit is set. -/
structure InflaterManaged where
  bits : BitsBuffer
  checkpoint_input_bits : Nat
  checkpoint_bit_buffer : Nat
  checkpoint_bfinal_block_type : Nat
  total_output_consumed : Nat
  current_inflated_count : Nat
  total_input_loaded : Nat
  output : OutputWindow
  bfinal : Bool
  block_type : BlockType
  block_length : Nat
  state : InflaterState
  literal_length_tree : HuffmanTree
  distance_tree : HuffmanTree
  uncompressed_size : Nat
  data_error : Bool

/-- Modelled from the spec (§6, §7): `errored()` reports the sticky
`data_error` flag. -/
def InflaterManaged.errored (st : InflaterManaged) : Bool := st.data_error

/-- `InflaterManaged::checkpoint()` from src/inflater_checkpoint_impl.rs.
`u32`/`u16` casts appear as explicit `%`; the `u64` sums stay exact (they
cannot approach 2^64 in any reachable state). -/
def checkpointImpl (st : InflaterManaged) : Option (List Nat × CheckpointStreamPositions) :=
  if st.checkpoint_input_bits = 0 ∨ st.errored = true ∨
      (st.output.available_bytes = 0 ∧ st.state = InflaterState.Done) then none
  else
    match BlockType.from_int (st.checkpoint_bfinal_block_type &&& 0x7F) with
    | none => none
    | some checkpoint_block_type =>
      let uncompressed_remaining : Nat :=
        match checkpoint_block_type with
        | BlockType.Uncompressed => st.block_length % U32
        | _ => 0
      let lit_codes : List Nat :=
        if checkpoint_block_type = BlockType.Dynamic then
          st.literal_length_tree.code_lengths ++
            List.replicate (288 - st.literal_length_tree.code_lengths.length) 0
        else List.replicate 288 0
      let dist_codes : List Nat :=
        if checkpoint_block_type = BlockType.Dynamic then
          st.distance_tree.code_lengths ++
            List.replicate (32 - st.distance_tree.code_lengths.length) 0
        else List.replicate 32 0
      let output_bytes_written := st.total_output_consumed + st.output.available_bytes
      let bytes_unread := st.output.available_bytes % U32
      let wpair := st.output.get_checkpoint_data output_bytes_written
      let bfinal_block_type := st.checkpoint_bfinal_block_type
      let num_buffered_bits := (8 - st.checkpoint_input_bits % 8) &&& 7
      let buffered_value := st.checkpoint_bit_buffer &&& ((1 <<< num_buffered_bits) - 1)
      let out := leBytes 2 0x1001 ++ leBytes 8 st.checkpoint_input_bits ++
        [buffered_value, bfinal_block_type] ++ leBytes 2 (uncompressed_remaining % 65536) ++
        lit_codes ++ dist_codes ++ leBytes 8 output_bytes_written ++ leBytes 4 bytes_unread ++
        wpair.1 ++ wpair.2
      let checksum := fletcher32_checksum out
      some (out ++ leBytes 4 checksum,
        ⟨(st.checkpoint_input_bits + 7) / 8, output_bytes_written - bytes_unread⟩)

/-- `InflaterManaged::checkpoint()` from src/inflater_managed_checkpoint.rs;
identical to the other copy except that it calls the associated function
`Self::fletcher32_checksum`. -/
def checkpointManaged (st : InflaterManaged) : Option (List Nat × CheckpointStreamPositions) :=
  if st.checkpoint_input_bits = 0 ∨ st.errored = true ∨
      (st.output.available_bytes = 0 ∧ st.state = InflaterState.Done) then none
  else
    match BlockType.from_int (st.checkpoint_bfinal_block_type &&& 0x7F) with
    | none => none
    | some checkpoint_block_type =>
      let uncompressed_remaining : Nat :=
        match checkpoint_block_type with
        | BlockType.Uncompressed => st.block_length % U32
        | _ => 0
      let lit_codes : List Nat :=
        if checkpoint_block_type = BlockType.Dynamic then
          st.literal_length_tree.code_lengths ++
            List.replicate (288 - st.literal_length_tree.code_lengths.length) 0
        else List.replicate 288 0
      let dist_codes : List Nat :=
        if checkpoint_block_type = BlockType.Dynamic then
          st.distance_tree.code_lengths ++
            List.replicate (32 - st.distance_tree.code_lengths.length) 0
        else List.replicate 32 0
      let output_bytes_written := st.total_output_consumed + st.output.available_bytes
      let bytes_unread := st.output.available_bytes % U32
      let wpair := st.output.get_checkpoint_data output_bytes_written
      let bfinal_block_type := st.checkpoint_bfinal_block_type
      let num_buffered_bits := (8 - st.checkpoint_input_bits % 8) &&& 7
      let buffered_value := st.checkpoint_bit_buffer &&& ((1 <<< num_buffered_bits) - 1)
      let out := leBytes 2 0x1001 ++ leBytes 8 st.checkpoint_input_bits ++
        [buffered_value, bfinal_block_type] ++ leBytes 2 (uncompressed_remaining % 65536) ++
        lit_codes ++ dist_codes ++ leBytes 8 output_bytes_written ++ leBytes 4 bytes_unread ++
        wpair.1 ++ wpair.2
      let checksum := fletcher32_checksum_method out
      some (out ++ leBytes 4 checksum,
        ⟨(st.checkpoint_input_bits + 7) / 8, output_bytes_written - bytes_unread⟩)

/-- The "All validation passed - modify self" tail shared verbatim by both
`restore_from_checkpoint` copies: overwrite the inflater fields and pick the
resumed state from the restored block type. -/
def restoreCommit (st : InflaterManaged) (bits : BitsBuffer)
    (input_bits buffered_value output_bytes_written output_bytes_unread : Nat)
    (window_data : List Nat) (bfinal_block_type : Nat) (bfinal : Bool)
    (block_type : BlockType) (remaining_uncompressed : Nat)
    (lit_tree dist_tree : HuffmanTree) : InflaterManaged :=
  let base : InflaterManaged := { st with
    bits := bits
    checkpoint_input_bits := input_bits
    checkpoint_bit_buffer := buffered_value
    total_output_consumed := output_bytes_written - output_bytes_unread
    current_inflated_count := output_bytes_written - output_bytes_unread
    total_input_loaded := (input_bits + 7) / 8
    output := st.output.restore_from_checkpoint window_data output_bytes_unread
    checkpoint_bfinal_block_type := bfinal_block_type }
  match block_type with
  | BlockType.Uncompressed =>
    { base with
      bfinal := bfinal
      block_type := BlockType.Uncompressed
      block_length := remaining_uncompressed
      state :=
        if 0 < remaining_uncompressed then InflaterState.DecodingUncompressed
        else if bfinal = false then InflaterState.ReadingBFinal
        else InflaterState.Done }
  | BlockType.Static =>
    { base with
      bfinal := bfinal
      block_type := BlockType.Static
      literal_length_tree := HuffmanTree.static_literal_length_tree
      distance_tree := HuffmanTree.static_distance_tree
      state := InflaterState.DecodeTop }
  | BlockType.Dynamic =>
    { base with
      bfinal := bfinal
      block_type := BlockType.Dynamic
      literal_length_tree := lit_tree
      distance_tree := dist_tree
      state := InflaterState.DecodeTop }

/-- The validation phase of `restore_from_checkpoint` from
src/inflater_checkpoint_impl.rs. The sequential `read(n)` cursor is modelled
by `take`/`drop` at fixed offsets; its per-read length checks always succeed
here because the first guard ensures `data.length ≥ CHECKPOINT_HEADER_SIZE`.
Every `return None` in the source occurs before any field of `self` is
modified; the commit tail runs only after all checks (including building both
replacement Huffman trees) succeed. -/
def restoreImplOpt (st : InflaterManaged) (checkpoint_data : List Nat) :
    Option (InflaterManaged × CheckpointStreamPositions) :=
  if checkpoint_data.length < CHECKPOINT_HEADER_SIZE + 4 then none
  else
    let data := checkpoint_data.take (checkpoint_data.length - 4)
    let checksum_bytes := checkpoint_data.drop (checkpoint_data.length - 4)
    let stored_checksum := leNum checksum_bytes
    if fletcher32_checksum data ≠ stored_checksum then none
    else
      let version := leNum (data.take 2)
      if version ≠ 0x1001 then none
      else
        let input_bits := leNum ((data.drop 2).take 8)
        let buffered_value := ((data.drop 10).take 1).headD 0
        let bfinal_block_type := ((data.drop 11).take 1).headD 0
        let remaining_uncompressed := leNum ((data.drop 12).take 2)
        let lit_codes := (data.drop 14).take 288
        let dist_codes := (data.drop 302).take 32
        let output_bytes_written := leNum ((data.drop 334).take 8)
        let output_bytes_unread := leNum ((data.drop 342).take 4)
        let window_data := data.drop CHECKPOINT_HEADER_SIZE
        let num_buffered_bits := (8 - input_bits % 8) &&& 7
        let bits := BitsBuffer.from_bits buffered_value num_buffered_bits
        let expected_window_len :=
          max (min output_bytes_written TABLE_LOOKUP_DISTANCE_MAX) output_bytes_unread
        if window_data.length ≠ expected_window_len ∨ window_data.length > WINDOW_SIZE then none
        else
          let output_already_returned := output_bytes_written - output_bytes_unread
          if st.uncompressed_size ≠ USIZE_MAX ∧
              st.uncompressed_size < output_already_returned then none
          else
            let bfinal := bfinal_block_type &&& 128 ≠ 0
            let block_type_val := bfinal_block_type % 128
            match BlockType.from_int block_type_val with
            | none => none
            | some block_type =>
              if block_type = BlockType.Dynamic then
                if lit_codes.any (fun x => 16 < x) ∨ dist_codes.any (fun x => 16 < x) then none
                else
                  match HuffmanTree.new lit_codes, HuffmanTree.new dist_codes with
                  | Except.ok lit_tree, Except.ok dist_tree =>
                    some (restoreCommit st bits input_bits buffered_value output_bytes_written
                        output_bytes_unread window_data bfinal_block_type bfinal block_type
                        remaining_uncompressed lit_tree dist_tree,
                      ⟨(input_bits + 7) / 8, output_bytes_written - output_bytes_unread⟩)
                  | _, _ => none
              else if block_type = BlockType.Uncompressed ∧ 0 < remaining_uncompressed ∧
                  bits.bits_in_buffer ≠ 0 then none
              else
                some (restoreCommit st bits input_bits buffered_value output_bytes_written
                    output_bytes_unread window_data bfinal_block_type bfinal block_type
                    remaining_uncompressed HuffmanTree.invalid HuffmanTree.invalid,
                  ⟨(input_bits + 7) / 8, output_bytes_written - output_bytes_unread⟩)

/-- `InflaterManaged::restore_from_checkpoint` from
src/inflater_checkpoint_impl.rs as a state transformer: on any validation
failure the source returns `None` without having touched `self`. -/
def restoreImpl (st : InflaterManaged) (checkpoint_data : List Nat) :
    InflaterManaged × Option CheckpointStreamPositions :=
  match restoreImplOpt st checkpoint_data with
  | none => (st, none)
  | some (st2, p) => (st2, some p)

/-- The validation phase of `restore_from_checkpoint` from
src/inflater_managed_checkpoint.rs. Identical to `restoreImplOpt` except that
it calls `Self::fletcher32_checksum` and has no `uncompressed_size` check. -/
def restoreManagedOpt (st : InflaterManaged) (checkpoint_data : List Nat) :
    Option (InflaterManaged × CheckpointStreamPositions) :=
  if checkpoint_data.length < CHECKPOINT_HEADER_SIZE + 4 then none
  else
    let data := checkpoint_data.take (checkpoint_data.length - 4)
    let checksum_bytes := checkpoint_data.drop (checkpoint_data.length - 4)
    let stored_checksum := leNum checksum_bytes
    if fletcher32_checksum_method data ≠ stored_checksum then none
    else
      let version := leNum (data.take 2)
      if version ≠ 0x1001 then none
      else
        let input_bits := leNum ((data.drop 2).take 8)
        let buffered_value := ((data.drop 10).take 1).headD 0
        let bfinal_block_type := ((data.drop 11).take 1).headD 0
        let remaining_uncompressed := leNum ((data.drop 12).take 2)
        let lit_codes := (data.drop 14).take 288
        let dist_codes := (data.drop 302).take 32
        let output_bytes_written := leNum ((data.drop 334).take 8)
        let output_bytes_unread := leNum ((data.drop 342).take 4)
        let window_data := data.drop CHECKPOINT_HEADER_SIZE
        let num_buffered_bits := (8 - input_bits % 8) &&& 7
        let bits := BitsBuffer.from_bits buffered_value num_buffered_bits
        let expected_window_len :=
          max (min output_bytes_written TABLE_LOOKUP_DISTANCE_MAX) output_bytes_unread
        if window_data.length ≠ expected_window_len ∨ window_data.length > WINDOW_SIZE then none
        else
          let bfinal := bfinal_block_type &&& 128 ≠ 0
          let block_type_val := bfinal_block_type % 128
          match BlockType.from_int block_type_val with
          | none => none
          | some block_type =>
            if block_type = BlockType.Dynamic then
              if lit_codes.any (fun x => 16 < x) ∨ dist_codes.any (fun x => 16 < x) then none
              else
                match HuffmanTree.new lit_codes, HuffmanTree.new dist_codes with
                | Except.ok lit_tree, Except.ok dist_tree =>
                  some (restoreCommit st bits input_bits buffered_value output_bytes_written
                      output_bytes_unread window_data bfinal_block_type bfinal block_type
                      remaining_uncompressed lit_tree dist_tree,
                    ⟨(input_bits + 7) / 8, output_bytes_written - output_bytes_unread⟩)
                | _, _ => none
            else if block_type = BlockType.Uncompressed ∧ 0 < remaining_uncompressed ∧
                bits.bits_in_buffer ≠ 0 then none
            else
              some (restoreCommit st bits input_bits buffered_value output_bytes_written
                  output_bytes_unread window_data bfinal_block_type bfinal block_type
                  remaining_uncompressed HuffmanTree.invalid HuffmanTree.invalid,
                ⟨(input_bits + 7) / 8, output_bytes_written - output_bytes_unread⟩)

/-- `InflaterManaged::restore_from_checkpoint` from
src/inflater_managed_checkpoint.rs as a state transformer. -/
def restoreManaged (st : InflaterManaged) (checkpoint_data : List Nat) :
    InflaterManaged × Option CheckpointStreamPositions :=
  match restoreManagedOpt st checkpoint_data with
  | none => (st, none)
  | some (st2, p) => (st2, some p)

/-- A fresh output window. -/
def owZero : OutputWindow := ⟨fun _ => 0, 0, 0⟩

/-- A concrete inflater with no uncompressed-size limit
(`uncompressed_size = usize::MAX`). -/
def stNoLimit : InflaterManaged :=
  ⟨⟨0, 0⟩, 0, 0, 0, 0, 0, 0, owZero, false, BlockType.Uncompressed, 0,
    InflaterState.ReadingBFinal, HuffmanTree.invalid, HuffmanTree.invalid, USIZE_MAX, false⟩

/-- The same inflater constructed `with_uncompressed_size(1)`. -/
def stLimit1 : InflaterManaged := { stNoLimit with uncompressed_size := 1 }

/-- Header+window of a well-formed checkpoint blob: version 0x1001, 8 input
bits consumed, end-of-block (Uncompressed, 0 remaining, bfinal=0), 2 output
bytes written and already drained, 2-byte window history. -/
def blobHeaderC1 : List Nat :=
  leBytes 2 0x1001 ++ leBytes 8 8 ++ [0, 0] ++ leBytes 2 0 ++
  List.replicate 288 0 ++ List.replicate 32 0 ++ leBytes 8 2 ++ leBytes 4 0 ++ [0, 0]

/-- The complete valid checkpoint blob (with its correct checksum). -/
def blobC1 : List Nat := blobHeaderC1 ++ leBytes 4 (fletcher32_checksum blobHeaderC1)

set_option maxRecDepth 40000 in
/-- C1 counterexample: on an inflater with `uncompressed_size = 1`, the copy
in inflater_checkpoint_impl.rs rejects this valid blob (its
`output_bytes_already_returned = 2` exceeds the limit) while the copy in
inflater_managed_checkpoint.rs accepts it: the two `restore_from_checkpoint`
implementations do not accept the same blobs. -/
theorem restore_copies_differ :
    (restoreImpl stLimit1 blobC1).2 = none ∧
    (restoreManaged stLimit1 blobC1).2 = some ⟨1, 2⟩ := ⟨rfl, rfl⟩

theorem checkpoint_copies_eq (st : InflaterManaged) :
    checkpointImpl st = checkpointManaged st := by
  simp only [checkpointImpl, checkpointManaged, fletcher32_checksum_method_eq]

theorem restoreOpt_copies_eq (st : InflaterManaged) (blob : List Nat)
    (h : st.uncompressed_size = USIZE_MAX) :
    restoreImplOpt st blob = restoreManagedOpt st blob := by
  simp only [restoreImplOpt, restoreManagedOpt, fletcher32_checksum_method_eq, h, ne_eq,
    not_true_eq_false, false_and, if_false]

/-- C1 (amended): the two `checkpoint()` copies agree on every state, and the
two `restore_from_checkpoint` copies agree on every state that has no
configured uncompressed-size limit; with a limit configured, the
inflater_checkpoint_impl.rs copy additionally rejects checkpoints whose
already-returned output exceeds the limit. -/
theorem checkpoint_restore_copies_agree :
    (∀ st, checkpointImpl st = checkpointManaged st) ∧
    (∀ st blob, st.uncompressed_size = USIZE_MAX →
      restoreImpl st blob = restoreManaged st blob) := by
  refine ⟨checkpoint_copies_eq, ?_⟩
  intro st blob h
  unfold restoreImpl restoreManaged
  rw [restoreOpt_copies_eq st blob h]

/-- C10: whenever either `restore_from_checkpoint` copy returns `None`, the
inflater is left exactly as it was: every validation step, including the
construction of both replacement Huffman trees, precedes the first write to
`self`. -/
theorem restore_none_state_unchanged :
    (∀ st blob, (restoreImpl st blob).2 = none → (restoreImpl st blob).1 = st) ∧
    (∀ st blob, (restoreManaged st blob).2 = none → (restoreManaged st blob).1 = st) := by
  constructor
  · intro st blob h
    unfold restoreImpl at h ⊢
    cases hc : restoreImplOpt st blob with
    | none => rfl
    | some p => rw [hc] at h; simp at h
  · intro st blob h
    unfold restoreManaged at h ⊢
    cases hc : restoreManagedOpt st blob with
    | none => rfl
    | some p => rw [hc] at h; simp at h

/-- C4: for every inflater state whose recorded block-type byte is valid (an
invariant of all reachable states), `checkpoint()` returns `None` exactly when
no checkpointable moment has occurred (`checkpoint_input_bits = 0`), or the
decoder is errored, or it is `Done` with nothing left to drain; otherwise it
returns `Some`, and the positions' `input_bytes_to_skip` is
`ceil(checkpoint_input_bits / 8)`. -/
theorem checkpoint_none_iff (st : InflaterManaged)
    (hbt : st.checkpoint_bfinal_block_type &&& 127 ≤ 2) :
    (checkpointImpl st = none ↔
      (st.checkpoint_input_bits = 0 ∨ st.errored = true ∨
        (st.state = InflaterState.Done ∧ st.output.available_bytes = 0))) ∧
    (∀ blob pos, checkpointImpl st = some (blob, pos) →
      pos.input_bytes_to_skip = (st.checkpoint_input_bits + 7) / 8) := by
  have hfi : ∃ bt, BlockType.from_int (st.checkpoint_bfinal_block_type &&& 127) = some bt := by
    have h3 : st.checkpoint_bfinal_block_type &&& 127 = 0 ∨
        st.checkpoint_bfinal_block_type &&& 127 = 1 ∨
        st.checkpoint_bfinal_block_type &&& 127 = 2 := by omega
    rcases h3 with h | h | h <;> rw [h] <;> exact ⟨_, rfl⟩
  obtain ⟨bt, hbtEq⟩ := hfi
  by_cases hg : st.checkpoint_input_bits = 0 ∨ st.errored = true ∨
      (st.output.available_bytes = 0 ∧ st.state = InflaterState.Done)
  · constructor
    · constructor
      · intro _; tauto
      · intro _; simp only [checkpointImpl, if_pos hg]
    · intro blob pos h
      simp only [checkpointImpl, if_pos hg] at h
      simp at h
  · constructor
    · constructor
      · intro hcontra
        simp only [checkpointImpl, if_neg hg, hbtEq] at hcontra
        simp at hcontra
      · intro hr
        exact absurd (by tauto) hg
    · intro blob pos h
      simp only [checkpointImpl, if_neg hg, hbtEq, Option.some.injEq, Prod.mk.injEq] at h
      obtain ⟨_, hpos⟩ := h
      rw [← hpos]

/-- Flip the single bit at (little-endian) bit position `i` of a byte
sequence: byte `i / 8`, bit `i % 8`. -/
def flipBit (blob : List Nat) (i : Nat) : List Nat :=
  blob.set (i / 8) ((blob.getD (i / 8) 0) ^^^ (1 <<< (i % 8)))

theorem sum_set_add (l : List Nat) : ∀ (j b' : Nat), j < l.length →
    (l.set j b').sum + l.getD j 0 = l.sum + b' := by
  induction l with
  | nil => intro j b' h; simp at h
  | cons x t ih =>
    intro j b' h
    cases j with
    | zero => simp [Nat.add_comm, Nat.add_assoc, Nat.add_left_comm]
    | succ j =>
      simp only [List.set_cons_succ, List.sum_cons, List.getD_cons_succ]
      have := ih j b' (by simpa using h)
      omega

theorem getD_take_lt (l : List Nat) : ∀ (n j : Nat), j < n →
    (l.take n).getD j 0 = l.getD j 0 := by
  induction l with
  | nil => intro n j _; simp
  | cons x t ih =>
    intro n j hj
    cases n with
    | zero => omega
    | succ n =>
      cases j with
      | zero => simp
      | succ j => simpa using ih n j (by omega)

theorem getD_drop (l : List Nat) : ∀ (n m : Nat), (l.drop n).getD m 0 = l.getD (n + m) 0 := by
  induction l with
  | nil => intro n m; simp
  | cons x t ih =>
    intro n m
    cases n with
    | zero => simp
    | succ n =>
      simp only [List.drop_succ_cons]
      rw [ih n m]
      have : n + 1 + m = (n + m) + 1 := by omega
      rw [this, List.getD_cons_succ]

theorem getD_lt_of_bytes (l : List Nat) (j : Nat) (hb : ∀ b ∈ l, b < 256)
    (hj : j < l.length) : l.getD j 0 < 256 := by
  rw [List.getD_eq_getElem l 0 hj]
  exact hb _ (l.getElem_mem hj)

theorem leNum_set (cs : List Nat) : ∀ (m x : Nat), m < cs.length →
    leNum (cs.set m x) + (cs.getD m 0) * 256 ^ m = leNum cs + x * 256 ^ m := by
  induction cs with
  | nil => intro m x h; simp at h
  | cons c t ih =>
    intro m x h
    cases m with
    | zero => simp [leNum]; omega
    | succ m =>
      simp only [List.set_cons_succ, leNum, List.getD_cons_succ]
      have := ih m x (by simpa using h)
      have hpow : (256 : Nat) ^ (m + 1) = 256 ^ m * 256 := by ring
      rw [hpow]
      have h1 : (t.getD m 0) * (256 ^ m * 256) = ((t.getD m 0) * 256 ^ m) * 256 := by ring
      have h2 : x * (256 ^ m * 256) = (x * 256 ^ m) * 256 := by ring
      rw [h1, h2]
      omega

theorem xor_flip_byte : ∀ b, b < 256 → ∀ k, k < 8 →
    (b ^^^ (1 <<< k)) < 256 ∧
    ((b ^^^ (1 <<< k)) = b + 2 ^ k ∨ b = (b ^^^ (1 <<< k)) + 2 ^ k) := by
  decide

/-- C3: flipping any single bit of a checkpoint blob that
`restore_from_checkpoint` accepts yields a blob it rejects: a flip in the
checksummed region changes the byte sum mod 2^16 and hence the Fletcher
checksum, and a flip in the trailing 4 checksum bytes changes the stored
checksum, so the first checksum comparison fails either way. -/
theorem restore_rejects_bit_flip (st : InflaterManaged) (blob : List Nat) (i : Nat)
    (hbytes : ∀ b ∈ blob, b < 256) (hi : i < 8 * blob.length)
    (hacc : (restoreImpl st blob).2.isSome = true) :
    (restoreImpl st (flipBit blob i)).2 = none := by
  have hopt : ∃ p, restoreImplOpt st blob = some p := by
    unfold restoreImpl at hacc
    cases hc : restoreImplOpt st blob with
    | none => rw [hc] at hacc; simp at hacc
    | some p => exact ⟨p, rfl⟩
  obtain ⟨p, hopt⟩ := hopt
  have hlen : ¬(blob.length < CHECKPOINT_HEADER_SIZE + 4) := by
    intro hc
    unfold restoreImplOpt at hopt
    rw [if_pos hc] at hopt
    simp at hopt
  have hsum : fletcher32_checksum (blob.take (blob.length - 4))
      = leNum (blob.drop (blob.length - 4)) := by
    by_contra hne
    simp only [restoreImplOpt, if_neg hlen] at hopt
    rw [if_pos hne] at hopt
    simp at hopt
  have hCHS : CHECKPOINT_HEADER_SIZE = 346 := rfl
  have hjlt : i / 8 < blob.length := by omega
  have hklt : i % 8 < 8 := by omega
  have hblt : blob.getD (i / 8) 0 < 256 := getD_lt_of_bytes blob (i / 8) hbytes hjlt
  obtain ⟨hb'lt, hcases⟩ := xor_flip_byte (blob.getD (i / 8) 0) hblt (i % 8) hklt
  have hk1 : (1 : Nat) ≤ 2 ^ (i % 8) := Nat.one_le_two_pow
  have hk2 : 2 ^ (i % 8) ≤ 128 := by
    calc 2 ^ (i % 8) ≤ 2 ^ 7 := Nat.pow_le_pow_right (by norm_num) (by omega)
      _ = 128 := by norm_num
  have hbne : blob.getD (i / 8) 0 ^^^ (1 <<< (i % 8)) ≠ blob.getD (i / 8) 0 := by
    rcases hcases with h | h <;> omega
  have hflip : flipBit blob i
      = blob.set (i / 8) (blob.getD (i / 8) 0 ^^^ (1 <<< (i % 8))) := rfl
  rw [hflip]
  have hlen' : ¬((blob.set (i / 8) (blob.getD (i / 8) 0 ^^^ (1 <<< (i % 8)))).length
      < CHECKPOINT_HEADER_SIZE + 4) := by
    rw [List.length_set]
    exact hlen
  have hkey : fletcher32_checksum
      ((blob.set (i / 8) (blob.getD (i / 8) 0 ^^^ (1 <<< (i % 8)))).take
        ((blob.set (i / 8) (blob.getD (i / 8) 0 ^^^ (1 <<< (i % 8)))).length - 4))
      ≠ leNum ((blob.set (i / 8) (blob.getD (i / 8) 0 ^^^ (1 <<< (i % 8)))).drop
        ((blob.set (i / 8) (blob.getD (i / 8) 0 ^^^ (1 <<< (i % 8)))).length - 4)) := by
    rw [List.length_set]
    rcases Nat.lt_or_ge (i / 8) (blob.length - 4) with hcase | hcase
    · -- the flipped bit lies in the checksummed region: the byte-sum changes mod 2^16
      rw [List.set_take]
      have hdropeq : (blob.set (i / 8) (blob.getD (i / 8) 0 ^^^ (1 <<< (i % 8)))).drop
          (blob.length - 4) = blob.drop (blob.length - 4) := by
        rw [List.drop_set, if_pos hcase]
      rw [hdropeq, ← hsum]
      intro heq
      have h1 := fletcher_mod_sum (blob.take (blob.length - 4))
      have h2 := fletcher_mod_sum
        ((blob.take (blob.length - 4)).set (i / 8) (blob.getD (i / 8) 0 ^^^ (1 <<< (i % 8))))
      have hg : (blob.take (blob.length - 4)).getD (i / 8) 0 = blob.getD (i / 8) 0 :=
        getD_take_lt blob (blob.length - 4) (i / 8) hcase
      have hlen4 : i / 8 < (blob.take (blob.length - 4)).length := by
        rw [List.length_take]
        omega
      have hss := sum_set_add (blob.take (blob.length - 4)) (i / 8)
        (blob.getD (i / 8) 0 ^^^ (1 <<< (i % 8))) hlen4
      rw [hg] at hss
      rw [heq] at h2
      rcases hcases with hcc | hcc <;> omega
    · -- the flipped bit lies in the stored checksum: the stored value changes
      have htakeeq : (blob.set (i / 8) (blob.getD (i / 8) 0 ^^^ (1 <<< (i % 8)))).take
          (blob.length - 4) = blob.take (blob.length - 4) := by
        rw [List.set_take]
        exact List.set_eq_of_length_le (by rw [List.length_take]; omega)
      rw [htakeeq, hsum]
      have hdropeq : (blob.set (i / 8) (blob.getD (i / 8) 0 ^^^ (1 <<< (i % 8)))).drop
          (blob.length - 4)
          = (blob.drop (blob.length - 4)).set (i / 8 - (blob.length - 4))
            (blob.getD (i / 8) 0 ^^^ (1 <<< (i % 8))) := by
        rw [List.drop_set, if_neg (by omega)]
      rw [hdropeq]
      have hmlt : i / 8 - (blob.length - 4) < (blob.drop (blob.length - 4)).length := by
        rw [List.length_drop]
        omega
      have hgm : (blob.drop (blob.length - 4)).getD (i / 8 - (blob.length - 4)) 0
          = blob.getD (i / 8) 0 := by
        rw [getD_drop]
        congr 1
        omega
      have hln := leNum_set (blob.drop (blob.length - 4)) (i / 8 - (blob.length - 4))
        (blob.getD (i / 8) 0 ^^^ (1 <<< (i % 8))) hmlt
      rw [hgm] at hln
      intro heq
      rw [heq] at hln
      have hm4 : 0 < (256 : Nat) ^ (i / 8 - (blob.length - 4)) := Nat.pow_pos (by norm_num)
      have hmm : blob.getD (i / 8) 0 * 256 ^ (i / 8 - (blob.length - 4))
          = (blob.getD (i / 8) 0 ^^^ (1 <<< (i % 8))) * 256 ^ (i / 8 - (blob.length - 4)) := by
        omega
      have := Nat.eq_of_mul_eq_mul_right hm4 hmm
      exact hbne (by omega)
  unfold restoreImpl
  have hnone : restoreImplOpt st
      (blob.set (i / 8) (blob.getD (i / 8) 0 ^^^ (1 <<< (i % 8)))) = none := by
    simp only [restoreImplOpt, if_neg hlen']
    rw [if_pos hkey]
  rw [hnone]

theorem checkpoint_restore_copies_agree_witness :
    restoreImpl stNoLimit blobC1 = restoreManaged stNoLimit blobC1 :=
  checkpoint_restore_copies_agree.2 stNoLimit blobC1 rfl

set_option maxRecDepth 40000 in
theorem restore_rejects_bit_flip_witness :
    (restoreImpl stNoLimit (flipBit blobC1 0)).2 = none :=
  restore_rejects_bit_flip stNoLimit blobC1 0 (by decide) (by decide) (by rfl)

theorem checkpoint_none_iff_witness : checkpointImpl stNoLimit = none :=
  (checkpoint_none_iff stNoLimit (by decide)).1.mpr (Or.inl rfl)

theorem get_checkpoint_data_length_witness :
    ((owZero.get_checkpoint_data 0).1).length + ((owZero.get_checkpoint_data 0).2).length
      = max (min 0 65538) owZero.bytes_used :=
  get_checkpoint_data_length owZero 0 (by decide) (by decide) (by decide)

theorem huffman_new_error_iff_witness :
    HuffmanTree.new static_distance_tree_lengths = .error () ↔
      ((∃ ch len start,
          create_table static_distance_tree_lengths = .error (.shortCollision ch len start)) ∨
       (∃ v, create_table static_distance_tree_lengths = .error (.leafOverwrite v)) ∨
       (∃ i, create_table static_distance_tree_lengths = .error (.poolOverrun i))) :=
  (huffman_new_error_iff static_distance_tree_lengths (by decide) (by decide)).1

theorem copy_to_spec_witness :
    (owZero.copy_to 5).2.2 = min 5 owZero.bytes_used :=
  (copy_to_spec owZero 5 (by decide) (by decide)).1

theorem write_length_distance_spec_witness :
    (owZero.write_length_distance 3 1).endPos = (owZero.endPos + 3) % WINDOW_SIZE ∧
    (owZero.write_length_distance 3 1).bytes_used = owZero.bytes_used + 3 :=
  ⟨(write_length_distance_spec owZero 3 1 (by decide) (by decide) (by decide) (by decide)).1,
   (write_length_distance_spec owZero 3 1 (by decide) (by decide) (by decide) (by decide)).2.1⟩

theorem pack_unpack_leaves_witness :
    0 ≤ pack 5 3 ∧ unpack (pack 5 3) = (5, (3 : Int)) :=
  pack_unpack_leaves.1 5 (by decide) 3 (by decide) (by decide)

theorem restore_none_state_unchanged_witness :
    (restoreImpl stNoLimit []).1 = stNoLimit :=
  restore_none_state_unchanged.1 stNoLimit [] rfl
